import Mathlib

/-!
Verification of the device/application parsing, selection and launch logic of
`src/index.ts` (apple-metal-hud). Strings are modelled as `List Char`; the
JavaScript primitives used by the source (`String.prototype.split`, `trim`,
`substring`, `indexOf`, `includes`, `parseInt`, and the specific regular
expressions appearing in the source) are given explicit executable models.
-/

/-- JavaScript whitespace class (`\s`, and the class trimmed by `trim`):
ASCII whitespace plus NBSP, BOM and the common Unicode space/line separators. -/
def jsWs (c : Char) : Bool :=
  c.toNat == 32 || c.toNat == 9 || c.toNat == 10 || c.toNat == 13 ||
  c.toNat == 11 || c.toNat == 12 || c.toNat == 0xa0 || c.toNat == 0xfeff ||
  c.toNat == 0x1680 || (decide (0x2000 ≤ c.toNat) && decide (c.toNat ≤ 0x200a)) ||
  c.toNat == 0x2028 || c.toNat == 0x2029 || c.toNat == 0x202f ||
  c.toNat == 0x205f || c.toNat == 0x3000

/-- The class matched by `.` in a JavaScript regex (anything but a line terminator). -/
def isDot (c : Char) : Bool :=
  !(c.toNat == 10 || c.toNat == 13 || c.toNat == 0x2028 || c.toNat == 0x2029)

/-- The character class `[A-F0-9-]` under the `/i` flag, used by the legacy
identifier regex in `parseDeviceOutputLegacy`. -/
def isHexDash (c : Char) : Bool :=
  (decide (48 ≤ c.toNat) && decide (c.toNat ≤ 57)) ||
  (decide (65 ≤ c.toNat) && decide (c.toNat ≤ 70)) ||
  (decide (97 ≤ c.toNat) && decide (c.toNat ≤ 102)) || c.toNat == 45

/-- Hexadecimal digit (for the `0x` branch of `parseInt`). -/
def isHexDigit (c : Char) : Bool :=
  (decide (48 ≤ c.toNat) && decide (c.toNat ≤ 57)) ||
  (decide (65 ≤ c.toNat) && decide (c.toNat ≤ 70)) ||
  (decide (97 ≤ c.toNat) && decide (c.toNat ≤ 102))

/-- ASCII lower-casing, the folding relevant to the `/i` regex flag on the
ASCII labels used in the source. -/
def toLowerAscii (c : Char) : Char :=
  if 'A' ≤ c ∧ c ≤ 'Z' then Char.ofNat (c.toNat + 32) else c

/-- `pat` is a prefix of `l` (exact characters). -/
def startsWithStr : List Char → List Char → Bool
  | _, [] => true
  | [], _ :: _ => false
  | c :: l, d :: p => c == d && startsWithStr l p

/-- `pat` (given in lower case) is a case-insensitive prefix of `l`. -/
def ciStartsW : List Char → List Char → Bool
  | _, [] => true
  | [], _ :: _ => false
  | c :: l, d :: p => toLowerAscii c == d && ciStartsW l p

/-- First index at which `pat` occurs in the scanned list, if any. -/
def idxAux (pat : List Char) : List Char → Option Nat
  | [] => if startsWithStr [] pat then some 0 else none
  | l@(_ :: tl) => if startsWithStr l pat then some 0 else (idxAux pat tl).map (· + 1)

/-- JavaScript `String.prototype.includes`. -/
def containsSub (hay pat : List Char) : Bool := (idxAux pat hay).isSome

/-- JavaScript `String.prototype.indexOf` (yields `-1` when absent). -/
def jsIndexOf (hay pat : List Char) : Int :=
  match idxAux pat hay with
  | some n => (n : Int)
  | none => -1

/-- JavaScript `String.prototype.split("\n")`. -/
def splitLines : List Char → List (List Char)
  | [] => [[]]
  | c :: rest =>
    match splitLines rest with
    | [] => if c == '\n' then [[], []] else [[c]]
    | l :: ls => if c == '\n' then [] :: l :: ls else (c :: l) :: ls

/-- JavaScript `String.prototype.trim`. -/
def jsTrim (l : List Char) : List Char :=
  ((l.dropWhile jsWs).reverse.dropWhile jsWs).reverse

/-- Clamp a JavaScript index argument into `[0, n]`. -/
def clampIdx (n : Nat) (i : Int) : Nat :=
  if i < 0 then 0 else min i.toNat n

/-- JavaScript `String.prototype.substring(a, b)`: both arguments are clamped
into the string, and swapped when `a > b`. -/
def jsSubstring (l : List Char) (a b : Int) : List Char :=
  let x := clampIdx l.length a
  let y := clampIdx l.length b
  (l.take (max x y)).drop (min x y)

/-- JavaScript `String.prototype.substring(a)` (up to the end of the string). -/
def jsSubstringFrom (l : List Char) (a : Int) : List Char :=
  jsSubstring l a (l.length : Int)

/-- Decimal value of a digit list. -/
def decDigitsVal (ds : List Char) : Nat :=
  ds.foldl (fun acc c => acc * 10 + (c.toNat - 48)) 0

/-- Value of one hexadecimal digit. -/
def hexDigitVal (c : Char) : Nat :=
  if c.isDigit then c.toNat - 48
  else if decide ('a' ≤ c ∧ c ≤ 'f') then c.toNat - 87
  else c.toNat - 55

/-- Hexadecimal value of a digit list. -/
def hexDigitsVal (ds : List Char) : Nat :=
  ds.foldl (fun acc c => acc * 16 + hexDigitVal c) 0

/-- JavaScript `parseInt(s)` with no radix argument: leading whitespace is
skipped, an optional sign is read, a `0x`/`0X` prefix selects radix 16,
otherwise the longest leading run of decimal digits is read; `none` models
`NaN`. (The numeric value is modelled exactly as an integer.) -/
def jsParseInt (s : List Char) : Option Int :=
  let t := s.dropWhile jsWs
  let signed : Int × List Char :=
    match t with
    | '-' :: r => (-1, r)
    | '+' :: r => (1, r)
    | _ => (1, t)
  let sign := signed.1
  let t2 := signed.2
  match t2 with
  | '0' :: x :: r =>
    if x == 'x' || x == 'X' then
      let ds := r.takeWhile isHexDigit
      if ds.isEmpty then none else some (sign * (hexDigitsVal ds : Int))
    else
      let ds := t2.takeWhile Char.isDigit
      if ds.isEmpty then none else some (sign * (decDigitsVal ds : Int))
  | _ =>
    let ds := t2.takeWhile Char.isDigit
    if ds.isEmpty then none else some (sign * (decDigitsVal ds : Int))

/-- Decimal rendering of a natural number (JavaScript template interpolation
of a length). -/
def natDigitsAux : Nat → Nat → List Char
  | 0, _ => []
  | fuel + 1, n =>
    if n < 10 then [Char.ofNat (48 + n)]
    else natDigitsAux fuel (n / 10) ++ [Char.ofNat (48 + n % 10)]

/-- Decimal rendering of a natural number. -/
def natToChars (n : Nat) : List Char := natDigitsAux (n + 1) n

/-- The `DeviceInfo` interface of `src/index.ts`. -/
structure DeviceInfo where
  identifier : List Char
  name : Option (List Char)
  platform : Option (List Char)
  connectionType : Option (List Char)
  deriving DecidableEq, Repr

/-- The `ApplicationInfo` interface of `src/index.ts`. -/
structure ApplicationInfo where
  bundleId : List Char
  displayName : Option (List Char)
  pid : Option (List Char)
  fullPath : Option (List Char)
  deriving DecidableEq, Repr

/-- `DeviceManager.extractPlatformFromModel`. -/
def extractPlatformFromModel (model : List Char) : List Char :=
  if containsSub model ("iPhone".toList) then "iOS".toList
  else if containsSub model ("iPad".toList) then "iPadOS".toList
  else if containsSub model ("Watch".toList) then "watchOS".toList
  else if containsSub model ("Apple TV".toList) then "tvOS".toList
  else if containsSub model ("Mac".toList) then "macOS".toList
  else "Unknown".toList

/-- Generic model of JavaScript regex scanning: try a match at each start
position from left to right (each suffix, longest first). -/
def scanSuffixes {α : Type} (f : List Char → Option α) : List Char → Option α
  | [] => f []
  | l@(_ :: tl) =>
    match f l with
    | some r => some r
    | none => scanSuffixes f tl

/-- The legacy identifier label, lower-cased. -/
def identLabel : List Char := "identifier:".toList

/-- Match of `/Identifier:\s*([A-F0-9-]+)/i` anchored at the start of `t`:
the label (case-insensitively), greedy whitespace, then a non-empty run of
`[A-F0-9-]` characters which is the captured group. -/
def identAt (t : List Char) : Option (List Char) :=
  if ciStartsW t identLabel then
    let k := (t.drop identLabel.length).dropWhile jsWs
    let run := k.takeWhile isHexDash
    if run.isEmpty then none else some run
  else none

/-- The capture of `\s*(.+)` on the remainder of a line after a label: greedy
whitespace then a non-empty greedy run of non-line-terminator characters
(with the regex-engine backtracking case when the remainder is all
whitespace). -/
def dotCapture (rest : List Char) : Option (List Char) :=
  let k := rest.dropWhile jsWs
  match k with
  | [] =>
    match rest.reverse.dropWhile (fun c => !(isDot c)) with
    | [] => none
    | c :: _ => some [c]
  | _ => some (k.takeWhile isDot)

/-- Match of `/<label>:\s*(.+)/i` anchored at the start of `t`. -/
def labelValueAt (lab : List Char) (t : List Char) : Option (List Char) :=
  if ciStartsW t lab then dotCapture (t.drop lab.length) else none

/-- `trimmedLine.match(/Identifier:\s*([A-F0-9-]+)/i)`, capture group 1. -/
def lineIdentifier (t : List Char) : Option (List Char) := scanSuffixes identAt t

/-- `trimmedLine.match(/Name:\s*(.+)/i)`, capture group 1. -/
def lineName (t : List Char) : Option (List Char) :=
  scanSuffixes (labelValueAt ("name:".toList)) t

/-- `trimmedLine.match(/Platform:\s*(.+)/i)`, capture group 1. -/
def linePlatform (t : List Char) : Option (List Char) :=
  scanSuffixes (labelValueAt ("platform:".toList)) t

/-- `trimmedLine.match(/Connection Type:\s*(.+)/i)`, capture group 1. -/
def lineConnection (t : List Char) : Option (List Char) :=
  scanSuffixes (labelValueAt ("connection type:".toList)) t

/-- Flush the currently open record, if any. -/
def flushCur (cur : Option DeviceInfo) : List DeviceInfo :=
  match cur with
  | some d => [d]
  | none => []

/-- The line loop of `DeviceManager.parseDeviceOutputLegacy`: an
`Identifier:` match flushes the open record and opens a fresh one; while a
record is open, `Name:` / `Platform:` / `Connection Type:` matches (in that
order of precedence) populate its fields; the final open record is flushed
after the last line. -/
def legacyLoop : List (List Char) → Option DeviceInfo → List DeviceInfo
  | [], cur => flushCur cur
  | line :: ls, cur =>
    let t := jsTrim line
    match lineIdentifier t with
    | some id => flushCur cur ++ legacyLoop ls (some ⟨id, none, none, none⟩)
    | none =>
      match cur with
      | none => legacyLoop ls none
      | some d =>
        match lineName t with
        | some v => legacyLoop ls (some { d with name := some v })
        | none =>
          match linePlatform t with
          | some v => legacyLoop ls (some { d with platform := some v })
          | none =>
            match lineConnection t with
            | some v => legacyLoop ls (some { d with connectionType := some v })
            | none => legacyLoop ls (some d)

/-- `DeviceManager.parseDeviceOutputLegacy`. -/
def parseDeviceOutputLegacy (output : List Char) : List DeviceInfo :=
  legacyLoop (splitLines output) none

/-- The header detection of `DeviceManager.parseDeviceOutput`: a line
containing all four labels `Name`, `Identifier`, `State`, `Model`. -/
def headerPred (l : List Char) : Bool :=
  containsSub l ("Name".toList) && containsSub l ("Identifier".toList) &&
  containsSub l ("State".toList) && containsSub l ("Model".toList)

/-- Index of the first header line, if any. -/
def firstHeaderIdx : List (List Char) → Option Nat
  | [] => none
  | l :: ls => if headerPred l then some 0 else (firstHeaderIdx ls).map (· + 1)

/-- The per-row body of the tabular loop of `DeviceManager.parseDeviceOutput`:
skip blank lines, slice the row at the four column starts, trim, and accept
the row only when the trimmed identifier slice is longer than 10 characters. -/
def parseTabularRow (nc ic sc mc : Int) (line : List Char) : Option DeviceInfo :=
  if jsTrim line = [] then none
  else
    let name := jsTrim (jsSubstring line nc ic)
    let identifier := jsTrim (jsSubstring line ic sc)
    let state := jsTrim (jsSubstring line sc mc)
    let model := jsTrim (jsSubstringFrom line mc)
    if identifier ≠ [] ∧ identifier.length > 10 then
      some ⟨identifier,
            (if name = [] then none else some name),
            some (extractPlatformFromModel model),
            some (if containsSub state ("paired".toList) then "paired".toList
                  else "available".toList)⟩
    else none

/-- `DeviceManager.parseDeviceOutput`: find the first header line; if none,
fall back to the legacy parser; otherwise parse every line starting two
lines after the header (header and separator are skipped) by column slicing. -/
def parseDeviceOutput (output : List Char) : List DeviceInfo :=
  let lines := splitLines output
  match firstHeaderIdx lines with
  | none => parseDeviceOutputLegacy output
  | some i =>
    let header := lines.getD i []
    let nc := jsIndexOf header ("Name".toList)
    let ic := jsIndexOf header ("Identifier".toList)
    let sc := jsIndexOf header ("State".toList)
    let mc := jsIndexOf header ("Model".toList)
    (lines.drop (i + 2)).filterMap (parseTabularRow nc ic sc mc)

/-- Literal `Bundle/Application/` of the application bundle regex. -/
def bundleLit : List Char := "Bundle/Application/".toList

/-- Whether a list ends with `.app`. -/
def endsDotApp (l : List Char) : Bool :=
  startsWithStr l.reverse (".app".toList.reverse)

/-- Longest prefix of `run` of length `≤` the fuel that has length at least 5
and ends with `.app` — the greedy backtracking capture of `[^\/]+\.app`. -/
def appCutAux (run : List Char) : Nat → Option (List Char)
  | 0 => none
  | j + 1 =>
    if decide (5 ≤ j + 1) && endsDotApp (run.take (j + 1)) then some (run.take (j + 1))
    else appCutAux run j

/-- Greedy capture of `[^\/]+\.app` inside a maximal slash-free run. -/
def appCut (run : List Char) : Option (List Char) := appCutAux run run.length

/-- Match of `/Bundle\/Application\/([^\/]+)\/([^\/]+\.app)/` anchored at the
start of `t`: yields (bundle id, app name) captures. -/
def bundleAt (t : List Char) : Option (List Char × List Char) :=
  if startsWithStr t bundleLit then
    let rest := t.drop bundleLit.length
    let bid := rest.takeWhile (fun c => !(c == '/'))
    if bid.isEmpty then none
    else
      match rest.drop bid.length with
      | '/' :: rest2 =>
        let run := rest2.takeWhile (fun c => !(c == '/'))
        (appCut run).map (fun nm => (bid, nm))
      | _ => none
  else none

/-- `trimmedLine.match(/Bundle\/Application\/([^\/]+)\/([^\/]+\.app)/)`. -/
def bundleCapture (t : List Char) : Option (List Char × List Char) :=
  scanSuffixes bundleAt t

/-- Literal prefix of the full-path regex. -/
def pathLit : List Char := "/private/var/containers/Bundle/Application/".toList

/-- Match of the full-path regex anchored at the start of `t`; group 1 is the
whole matched path. -/
def pathAt (t : List Char) : Option (List Char) :=
  if startsWithStr t pathLit then
    let rest := t.drop pathLit.length
    let seg := rest.takeWhile (fun c => !(c == '/'))
    if seg.isEmpty then none
    else
      match rest.drop seg.length with
      | '/' :: rest2 =>
        let run := rest2.takeWhile (fun c => !(c == '/'))
        (appCut run).map (fun nm => pathLit ++ seg ++ '/' :: nm)
      | _ => none
  else none

/-- `trimmedLine.match(/(\/private\/var\/containers\/Bundle\/Application\/[^\/]+\/[^\/]+\.app)/)`. -/
def pathCaptureLine (t : List Char) : Option (List Char) := scanSuffixes pathAt t

/-- `trimmedLine.match(/^\s*(\d+)/)`: the leading run of digits after leading
whitespace. -/
def pidCapture (t : List Char) : Option (List Char) :=
  let run := (t.dropWhile jsWs).takeWhile Char.isDigit
  if run.isEmpty then none else some run

/-- One line of `DeviceManager.parseApplicationOutput`: skip blank lines, try
the bundle regex, and push a new record unless the bundle id already occurs. -/
def appStep (apps : List ApplicationInfo) (line : List Char) : List ApplicationInfo :=
  let t := jsTrim line
  if t = [] then apps
  else
    match bundleCapture t with
    | none => apps
    | some (bid, nm) =>
      if apps.any (fun a => a.bundleId = bid) then apps
      else apps ++ [⟨bid, some nm, pidCapture t, pathCaptureLine t⟩]

/-- `DeviceManager.parseApplicationOutput`. -/
def parseApplicationOutput (output : List Char) : List ApplicationInfo :=
  (splitLines output).foldl appStep []

/-- `DeviceManager.getApplications`, modelled on the outcome of the external
`xcrun` call: a success is parsed; a failure whose message contains
`No matching processes` becomes an empty success; any other failure
propagates. -/
def getApplications (execResult : Except (List Char) (List Char)) :
    Except (List Char) (List ApplicationInfo) :=
  match execResult with
  | .ok out => .ok (parseApplicationOutput out)
  | .error msg =>
    if containsSub msg ("No matching processes".toList) then .ok []
    else .error msg

/-- Error message when there is no device to select. -/
def noDeviceMsg : List Char := "선택할 수 있는 디바이스가 없습니다.".toList

/-- Error message when there is no application to select. -/
def noAppMsg : List Char := "선택할 수 있는 애플리케이션이 없습니다.".toList

/-- Range-description validation error for a menu of `n` entries. -/
def rangeMsg (n : Nat) : List Char :=
  "잘못된 선택입니다. 1부터 ".toList ++ natToChars n ++
  " 사이의 숫자를 입력해주세요.".toList

/-- Shared menu-input validation of `selectDevice` / `selectApplication`:
`parseInt(answer.trim())`, rejected when `NaN` or outside `[1, n]`, otherwise
the 0-based index. -/
def selectIndex (n : Nat) (answer : List Char) : Except (List Char) Nat :=
  match jsParseInt (jsTrim answer) with
  | none => .error (rangeMsg n)
  | some k =>
    if k < 1 ∨ (n : Int) < k then .error (rangeMsg n) else .ok (k - 1).toNat

/-- Placeholder device for the (proved unreachable) out-of-range access. -/
def emptyDevice : DeviceInfo := ⟨[], none, none, none⟩

/-- Placeholder application for the (proved unreachable) out-of-range access. -/
def emptyApplication : ApplicationInfo := ⟨[], none, none, none⟩

/-- `DeviceManager.selectDevice`, with the interactive answer line passed as
an argument: empty list fails, a single device is auto-selected without
consulting the answer, otherwise the validated 1-based choice is returned. -/
def selectDevice (devices : List DeviceInfo) (answer : List Char) :
    Except (List Char) (List Char) :=
  match devices with
  | [] => .error noDeviceMsg
  | [d] => .ok d.identifier
  | _ =>
    match selectIndex devices.length answer with
    | .error e => .error e
    | .ok i => .ok (devices.getD i emptyDevice).identifier

/-- `DeviceManager.selectApplication`, with the interactive answer line passed
as an argument. -/
def selectApplication (apps : List ApplicationInfo) (answer : List Char) :
    Except (List Char) ApplicationInfo :=
  match apps with
  | [] => .error noAppMsg
  | [a] => .ok a
  | _ =>
    match selectIndex apps.length answer with
    | .error e => .error e
    | .ok i => .ok (apps.getD i emptyApplication)

/-- Error message when the selected application has no full path. -/
def missingPathMsg : List Char := "애플리케이션의 전체 경로를 찾을 수 없습니다.".toList

/-- The launch command line built by `DeviceManager.launchAppWithMetalHUD`. -/
def buildLaunchCommand (device : List Char) (fullPath : List Char) : List Char :=
  "xcrun devicectl device process launch -e \x27\x7b\"MTL_HUD_ENABLED\": \"1\"\x7d\x27 --console --device ".toList
  ++ device ++ " \"".toList ++ fullPath ++ "\"".toList

/-- `DeviceManager.launchAppWithMetalHUD` up to the external execution: the
source guard is the truthiness check `!app.fullPath`, which fails both when
`fullPath` is absent and when it is the (falsy) empty string, before any
command is built; otherwise the exact command line handed to the external
tool is produced. -/
def launchAppWithMetalHUD (device : List Char) (app : ApplicationInfo) :
    Except (List Char) (List Char) :=
  match app.fullPath with
  | none => .error missingPathMsg
  | some p => if p = [] then .error missingPathMsg else .ok (buildLaunchCommand device p)

/-! Helper lemmas about the string machinery. -/

theorem splitLines_ne_nil (l : List Char) : splitLines l ≠ [] := by
  cases l with
  | nil => simp [splitLines]
  | cons c rest =>
    simp only [splitLines]
    split <;> split <;> simp

theorem splitLines_no_nl : ∀ a : List Char, '\n' ∉ a → splitLines a = [a] := by
  intro a
  induction a with
  | nil => intro _; rfl
  | cons c rest ih =>
    intro h
    have hc : (c == '\n') = false := by
      simp only [beq_eq_false_iff_ne, ne_eq]
      intro e; exact h (by simp [e])
    have hr : '\n' ∉ rest := fun hm => h (List.mem_cons_of_mem _ hm)
    simp [splitLines, ih hr, hc]

theorem splitLines_append (a b : List Char) (h : '\n' ∉ a) :
    splitLines (a ++ '\n' :: b) = a :: splitLines b := by
  induction a with
  | nil =>
    simp only [List.nil_append, splitLines]
    cases hb : splitLines b with
    | nil => exact absurd hb (splitLines_ne_nil b)
    | cons l ls => simp
  | cons c a' ih =>
    have hc : (c == '\n') = false := by
      simp only [beq_eq_false_iff_ne, ne_eq]
      intro e; exact h (by simp [e])
    have ha' : '\n' ∉ a' := fun hm => h (List.mem_cons_of_mem _ hm)
    have hrec := ih ha'
    simp only [List.cons_append, splitLines, List.append_eq] at hrec ⊢
    rw [hrec]
    simp [hc]

theorem scanSuffixes_hit {α : Type} (f : List Char → Option α) (t : List Char) (r : α)
    (h : f t = some r) : scanSuffixes f t = some r := by
  cases t <;> simp [scanSuffixes, h]

theorem scanSuffixes_some {α : Type} {P : α → Prop} (f : List Char → Option α)
    (hf : ∀ t r, f t = some r → P r) :
    ∀ t r, scanSuffixes f t = some r → P r := by
  intro t
  induction t with
  | nil => intro r h; exact hf [] r (by simpa [scanSuffixes] using h)
  | cons c tl ih =>
    intro r h
    cases hfx : f (c :: tl) with
    | some x =>
      have hx : scanSuffixes f (c :: tl) = some x := by simp [scanSuffixes, hfx]
      rw [hx] at h
      cases h
      exact hf _ _ hfx
    | none =>
      have hx : scanSuffixes f (c :: tl) = scanSuffixes f tl := by
        simp [scanSuffixes, hfx]
      rw [hx] at h
      exact ih r h

theorem scanSuffixes_append_none {α : Type} (f : List Char → Option α)
    (pre rest : List Char)
    (h : ∀ i, i < pre.length → f ((pre ++ rest).drop i) = none) :
    scanSuffixes f (pre ++ rest) = scanSuffixes f rest := by
  induction pre with
  | nil => rfl
  | cons c p ih =>
    have h0 : f (c :: (p ++ rest)) = none := by simpa using h 0 (by simp)
    have hx : scanSuffixes f ((c :: p) ++ rest) = scanSuffixes f (p ++ rest) := by
      simp [scanSuffixes, h0]
    rw [hx]
    refine ih fun i hi => ?_
    have := h (i + 1) (by simp only [List.length_cons]; omega)
    simpa using this

theorem dropLenAppend (a b : List Char) : (a ++ b).drop a.length = b := by
  induction a with
  | nil => simp
  | cons c a' ih => exact ih

theorem ciStartsW_append (a pat rest : List Char) (h : ciStartsW a pat = true) :
    ciStartsW (a ++ rest) pat = true := by
  induction pat generalizing a with
  | nil => simp [ciStartsW]
  | cons d p ih =>
    cases a with
    | nil => simp [ciStartsW] at h
    | cons c a' =>
      simp only [ciStartsW, Bool.and_eq_true] at h
      simp only [List.cons_append, ciStartsW, Bool.and_eq_true]
      exact ⟨h.1, ih a' h.2⟩

theorem takeWhile_all (p : Char → Bool) :
    ∀ l : List Char, l.all p = true → l.takeWhile p = l := by
  intro l
  induction l with
  | nil => intro _; rfl
  | cons c l' ih =>
    intro h
    simp only [List.all_cons, Bool.and_eq_true] at h
    simp [List.takeWhile_cons, h.1, ih h.2]

theorem takeWhile_all_append (p : Char → Bool) (r s : List Char)
    (hr : r.all p = true) (hs : ∀ c, s.head? = some c → p c = false) :
    (r ++ s).takeWhile p = r := by
  induction r with
  | nil =>
    cases s with
    | nil => rfl
    | cons c s' => simp [List.takeWhile_cons, hs c rfl]
  | cons c r' ih =>
    simp only [List.all_cons, Bool.and_eq_true] at hr
    simp [List.takeWhile_cons, hr.1, ih hr.2]

theorem dropWhile_all_append (p : Char → Bool) (w rest : List Char)
    (hw : w.all p = true) : (w ++ rest).dropWhile p = rest.dropWhile p := by
  induction w with
  | nil => rfl
  | cons c w' ih =>
    simp only [List.all_cons, Bool.and_eq_true] at hw
    simp [List.dropWhile_cons, hw.1, ih hw.2]

theorem dropWhile_head_false (p : Char → Bool) (c : Char) (v : List Char)
    (hc : p c = false) : (c :: v).dropWhile p = c :: v := by
  simp [List.dropWhile_cons, hc]

theorem isHexDash_not_ws (c : Char) (h : isHexDash c = true) : jsWs c = false := by
  simp only [isHexDash, Bool.or_eq_true, Bool.and_eq_true, decide_eq_true_eq,
    beq_iff_eq] at h
  simp only [jsWs, Bool.or_eq_true, Bool.and_eq_true, decide_eq_true_eq, beq_iff_eq,
    Bool.eq_false_iff, ne_eq, not_or]
  omega

theorem mem_all_false {p : Char → Bool} {l : List Char} (h : l.all p = true)
    {c : Char} (hc : p c = false) : c ∉ l := by
  intro hm
  have := List.all_eq_true.mp h c hm
  rw [hc] at this
  exact absurd this (by simp)

theorem identAt_clean (w r s : List Char) (hw : w.all jsWs = true) (hr : r ≠ [])
    (hra : r.all isHexDash = true)
    (hs : ∀ c, s.head? = some c → isHexDash c = false) :
    identAt ("Identifier:".toList ++ (w ++ (r ++ s))) = some r := by
  obtain ⟨c, r', rfl⟩ : ∃ c r', r = c :: r' := by
    cases r with
    | nil => exact absurd rfl hr
    | cons c r' => exact ⟨c, r', rfl⟩
  have hci : ciStartsW ("Identifier:".toList ++ (w ++ (c :: r' ++ s))) identLabel = true :=
    ciStartsW_append _ _ _ (by decide)
  have hlen : identLabel.length = ("Identifier:".toList).length := by decide
  have hc : isHexDash c = true := by
    have := List.all_eq_true.mp hra c (by simp)
    simpa using this
  unfold identAt
  rw [hci]
  simp only [if_true, hlen, dropLenAppend]
  rw [dropWhile_all_append _ _ _ hw]
  rw [List.cons_append, dropWhile_head_false _ _ _ (isHexDash_not_ws c hc)]
  rw [← List.cons_append, takeWhile_all_append _ _ _ hra hs]
  simp

theorem dotCapture_clean (w : List Char) (c : Char) (v : List Char)
    (hw : w.all jsWs = true) (hc : jsWs c = false) (hv : (c :: v).all isDot = true) :
    dotCapture (w ++ c :: v) = some (c :: v) := by
  unfold dotCapture
  rw [dropWhile_all_append _ _ _ hw, dropWhile_head_false _ _ _ hc]
  simp only [takeWhile_all _ _ hv]

theorem labelValueAt_clean (lab cased w : List Char) (c : Char) (v : List Char)
    (hlen : cased.length = lab.length) (hci : ciStartsW cased lab = true)
    (hw : w.all jsWs = true) (hc : jsWs c = false) (hv : (c :: v).all isDot = true) :
    labelValueAt lab (cased ++ (w ++ c :: v)) = some (c :: v) := by
  unfold labelValueAt
  rw [ciStartsW_append _ _ _ hci]
  simp only [if_true, ← hlen, dropLenAppend]
  exact dotCapture_clean w c v hw hc hv

theorem jsTrim_clean (w : List Char) (c : Char) (v : List Char)
    (hw : w.all jsWs = true) (hc : jsWs c = false)
    (hlast : ∀ ch, (c :: v).getLast? = some ch → jsWs ch = false) :
    jsTrim (w ++ c :: v) = c :: v := by
  unfold jsTrim
  rw [dropWhile_all_append _ _ _ hw, dropWhile_head_false _ _ _ hc]
  cases hrv : (c :: v).reverse with
  | nil => exact absurd hrv (by simp)
  | cons x xs =>
    have hx : (c :: v).getLast? = some x := by
      rw [← List.head?_reverse, hrv]
      rfl
    rw [dropWhile_head_false _ _ _ (hlast x hx), ← hrv, List.reverse_reverse]

theorem legacyLoop_ident (line : List Char) (ls : List (List Char))
    (cur : Option DeviceInfo) (id : List Char)
    (h : lineIdentifier (jsTrim line) = some id) :
    legacyLoop (line :: ls) cur =
      flushCur cur ++ legacyLoop ls (some ⟨id, none, none, none⟩) := by
  simp only [legacyLoop, h]

theorem legacyLoop_skip (line : List Char) (ls : List (List Char))
    (h : lineIdentifier (jsTrim line) = none) :
    legacyLoop (line :: ls) none = legacyLoop ls none := by
  simp only [legacyLoop, h]

theorem legacyLoop_name (line : List Char) (ls : List (List Char)) (d : DeviceInfo)
    (nm : List Char) (h1 : lineIdentifier (jsTrim line) = none)
    (h2 : lineName (jsTrim line) = some nm) :
    legacyLoop (line :: ls) (some d) = legacyLoop ls (some { d with name := some nm }) := by
  simp only [legacyLoop, h1, h2]

theorem legacyLoop_platform (line : List Char) (ls : List (List Char)) (d : DeviceInfo)
    (v : List Char) (h1 : lineIdentifier (jsTrim line) = none)
    (h2 : lineName (jsTrim line) = none) (h3 : linePlatform (jsTrim line) = some v) :
    legacyLoop (line :: ls) (some d) =
      legacyLoop ls (some { d with platform := some v }) := by
  simp only [legacyLoop, h1, h2, h3]

theorem identAt_ne_nil : ∀ (t r : List Char), identAt t = some r → r ≠ [] := by
  intro t r h
  simp only [identAt] at h
  split at h
  · split at h
    · exact absurd h (by simp)
    · rename_i hemp
      cases h
      simpa [List.isEmpty_iff] using hemp
  · exact absurd h (by simp)

theorem lineIdentifier_ne_nil (t r : List Char) (h : lineIdentifier t = some r) :
    r ≠ [] :=
  scanSuffixes_some identAt identAt_ne_nil t r h

theorem invOf (x : DeviceInfo) (hx : x.identifier ≠ []) :
    ∀ d, (some x : Option DeviceInfo) = some d → d.identifier ≠ [] := by
  intro d h
  have hxd := Option.some.inj h
  exact hxd ▸ hx

theorem legacyLoop_ne_nil :
    ∀ (lines : List (List Char)) (cur : Option DeviceInfo),
      (∀ d, cur = some d → d.identifier ≠ []) →
      ∀ d ∈ legacyLoop lines cur, d.identifier ≠ [] := by
  intro lines
  induction lines with
  | nil =>
    intro cur hcur d hd
    cases cur with
    | none => simp [legacyLoop, flushCur] at hd
    | some c =>
      simp [legacyLoop, flushCur] at hd
      exact hd ▸ hcur c rfl
  | cons line ls ih =>
    intro cur hcur d hd
    cases hid : lineIdentifier (jsTrim line) with
    | some id =>
      rw [legacyLoop_ident line ls cur id hid] at hd
      rcases List.mem_append.mp hd with hl | hr
      · cases cur with
        | none => simp [flushCur] at hl
        | some c =>
          simp [flushCur] at hl
          exact hl ▸ hcur c rfl
      · exact ih _ (invOf _ (lineIdentifier_ne_nil _ _ hid)) d hr
    | none =>
      cases cur with
      | none =>
        rw [legacyLoop_skip line ls hid] at hd
        exact ih none (by intro d' h'; exact absurd h' (by simp)) d hd
      | some dcur =>
        have hdcur : dcur.identifier ≠ [] := hcur dcur rfl
        cases hn : lineName (jsTrim line) with
        | some v =>
          rw [legacyLoop_name line ls dcur v hid hn] at hd
          exact ih (some { dcur with name := some v })
            (invOf { dcur with name := some v } hdcur) d hd
        | none =>
          cases hp : linePlatform (jsTrim line) with
          | some v =>
            rw [legacyLoop_platform line ls dcur v hid hn hp] at hd
            exact ih (some { dcur with platform := some v })
              (invOf { dcur with platform := some v } hdcur) d hd
          | none =>
            cases hco : lineConnection (jsTrim line) with
            | some v =>
              have : legacyLoop (line :: ls) (some dcur) =
                  legacyLoop ls (some { dcur with connectionType := some v }) := by
                simp only [legacyLoop, hid, hn, hp, hco]
              rw [this] at hd
              exact ih (some { dcur with connectionType := some v })
                (invOf { dcur with connectionType := some v } hdcur) d hd
            | none =>
              have : legacyLoop (line :: ls) (some dcur) = legacyLoop ls (some dcur) := by
                simp only [legacyLoop, hid, hn, hp, hco]
              rw [this] at hd
              exact ih _ (invOf _ hdcur) d hd

theorem parseTabularRow_ne_nil (nc ic sc mc : Int) (line : List Char) (d : DeviceInfo)
    (h : parseTabularRow nc ic sc mc line = some d) : d.identifier ≠ [] := by
  simp only [parseTabularRow] at h
  split at h
  · exact absurd h (by simp)
  · split at h
    · rename_i hcond
      cases h
      exact hcond.1
    · exact absurd h (by simp)

theorem parseDeviceOutput_header (output : List Char) (i : Nat)
    (h : firstHeaderIdx (splitLines output) = some i) :
    parseDeviceOutput output =
      ((splitLines output).drop (i + 2)).filterMap
        (parseTabularRow
          (jsIndexOf ((splitLines output).getD i []) ("Name".toList))
          (jsIndexOf ((splitLines output).getD i []) ("Identifier".toList))
          (jsIndexOf ((splitLines output).getD i []) ("State".toList))
          (jsIndexOf ((splitLines output).getD i []) ("Model".toList))) := by
  simp only [parseDeviceOutput, h]

theorem parseDeviceOutput_legacy_path (output : List Char)
    (h : firstHeaderIdx (splitLines output) = none) :
    parseDeviceOutput output = parseDeviceOutputLegacy output := by
  simp only [parseDeviceOutput, h]

theorem appStep_extends (apps : List ApplicationInfo) (line : List Char) :
    ∃ t, appStep apps line = apps ++ t := by
  by_cases ht : jsTrim line = []
  · exact ⟨[], by simp [appStep, ht]⟩
  · cases hb : bundleCapture (jsTrim line) with
    | none => exact ⟨[], by simp [appStep, ht, hb]⟩
    | some p =>
      obtain ⟨bid, nm⟩ := p
      by_cases hany : apps.any (fun a => a.bundleId = bid) = true
      · exact ⟨[], by simp [appStep, ht, hb, hany]⟩
      · refine ⟨[⟨bid, some nm, pidCapture (jsTrim line), pathCaptureLine (jsTrim line)⟩], ?_⟩
        simp [appStep, ht, hb, hany]

theorem appStep_dup (apps : List ApplicationInfo) (line : List Char)
    (bid nm : List Char) (hb : bundleCapture (jsTrim line) = some (bid, nm))
    (hmem : ∃ a ∈ apps, a.bundleId = bid) : appStep apps line = apps := by
  by_cases ht : jsTrim line = []
  · simp [appStep, ht]
  · have hany : apps.any (fun a => a.bundleId = bid) = true := by
      obtain ⟨a, ha, he⟩ := hmem
      exact List.any_eq_true.mpr ⟨a, ha, by simp [he]⟩
    simp [appStep, ht, hb, hany]

theorem appStep_nodupIds (apps : List ApplicationInfo) (line : List Char)
    (h : (apps.map (fun a => a.bundleId)).Nodup) :
    ((appStep apps line).map (fun a => a.bundleId)).Nodup := by
  by_cases ht : jsTrim line = []
  · simpa [appStep, ht] using h
  · cases hb : bundleCapture (jsTrim line) with
    | none => simpa [appStep, ht, hb] using h
    | some p =>
      obtain ⟨bid, nm⟩ := p
      by_cases hany : apps.any (fun a => a.bundleId = bid) = true
      · simpa [appStep, ht, hb, hany] using h
      · have hnotin : bid ∉ apps.map (fun a => a.bundleId) := by
          intro hmem
          obtain ⟨a, ha, he⟩ := List.mem_map.mp hmem
          exact hany (List.any_eq_true.mpr ⟨a, ha, by simp [he]⟩)
        simp only [appStep, ht, hb, hany, if_false, if_neg]
        simp [List.nodup_append, h, hnotin]

theorem foldl_appStep_nodup :
    ∀ (lines : List (List Char)) (apps : List ApplicationInfo),
      (apps.map (fun a => a.bundleId)).Nodup →
      ((lines.foldl appStep apps).map (fun a => a.bundleId)).Nodup := by
  intro lines
  induction lines with
  | nil => intro apps h; simpa using h
  | cons l ls ih => intro apps h; exact ih (appStep apps l) (appStep_nodupIds apps l h)

/-- C4: process-discovery error reinterpretation — an external failure of the
process listing whose message contains `No matching processes` is turned by
`getApplications` into a successful empty record list, while every other
external failure of that call propagates as an error. -/
theorem c4_no_matching_processes :
    (∀ msg : List Char, containsSub msg ("No matching processes".toList) = true →
      getApplications (.error msg) = .ok []) ∧
    (∀ msg : List Char, containsSub msg ("No matching processes".toList) = false →
      getApplications (.error msg) = .error msg) := by
  constructor
  · intro msg h
    simp only [getApplications, h]
    rfl
  · intro msg h
    simp only [getApplications, h]
    rfl

/-- C4 witness: the reinterpreted failure and an ordinary propagated failure,
at concrete messages. -/
theorem c4_witness :
    getApplications (.error ("xcrun: No matching processes were found".toList)) = .ok [] ∧
    getApplications (.error ("xcrun failed".toList)) = .error ("xcrun failed".toList) :=
  ⟨c4_no_matching_processes.1 _ (by decide), c4_no_matching_processes.2 _ (by decide)⟩

/-- C6: platform derivation — case-sensitive substring containment checked in
the fixed order iPhone, iPad, Watch, Apple TV, Mac with the first match
winning, and `Unknown` when no keyword is contained (the last conjunct shows
case-sensitivity: an upper-cased model matches nothing). -/
theorem c6_platform_mapping :
    (∀ m, containsSub m ("iPhone".toList) = true →
      extractPlatformFromModel m = "iOS".toList) ∧
    (∀ m, containsSub m ("iPhone".toList) = false →
      containsSub m ("iPad".toList) = true →
      extractPlatformFromModel m = "iPadOS".toList) ∧
    (∀ m, containsSub m ("iPhone".toList) = false →
      containsSub m ("iPad".toList) = false →
      containsSub m ("Watch".toList) = true →
      extractPlatformFromModel m = "watchOS".toList) ∧
    (∀ m, containsSub m ("iPhone".toList) = false →
      containsSub m ("iPad".toList) = false →
      containsSub m ("Watch".toList) = false →
      containsSub m ("Apple TV".toList) = true →
      extractPlatformFromModel m = "tvOS".toList) ∧
    (∀ m, containsSub m ("iPhone".toList) = false →
      containsSub m ("iPad".toList) = false →
      containsSub m ("Watch".toList) = false →
      containsSub m ("Apple TV".toList) = false →
      containsSub m ("Mac".toList) = true →
      extractPlatformFromModel m = "macOS".toList) ∧
    (∀ m, containsSub m ("iPhone".toList) = false →
      containsSub m ("iPad".toList) = false →
      containsSub m ("Watch".toList) = false →
      containsSub m ("Apple TV".toList) = false →
      containsSub m ("Mac".toList) = false →
      extractPlatformFromModel m = "Unknown".toList) ∧
    extractPlatformFromModel ("IPHONE 15".toList) = "Unknown".toList := by
  refine ⟨?_, ?_, ?_, ?_, ?_, ?_, by decide⟩
  · intro m h1
    simp only [extractPlatformFromModel, h1]
    rfl
  · intro m h1 h2
    simp only [extractPlatformFromModel, h1, h2]
    rfl
  · intro m h1 h2 h3
    simp only [extractPlatformFromModel, h1, h2, h3]
    rfl
  · intro m h1 h2 h3 h4
    simp only [extractPlatformFromModel, h1, h2, h3, h4]
    rfl
  · intro m h1 h2 h3 h4 h5
    simp only [extractPlatformFromModel, h1, h2, h3, h4, h5]
    rfl
  · intro m h1 h2 h3 h4 h5
    simp only [extractPlatformFromModel, h1, h2, h3, h4, h5]
    rfl

/-- C6 witness: the spec's own example, a model containing `iPhone 15 Pro`. -/
theorem c6_witness :
    extractPlatformFromModel ("iPhone 15 Pro".toList) = "iOS".toList :=
  c6_platform_mapping.1 _ (by decide)

/-- C8 counterexample: an application record whose `fullPath` IS set — to the
empty string — still fails with the missing-path error: the source guard is
the truthiness check `!app.fullPath`, for which the empty string is falsy, so
"when fullPath is set, the failure cannot occur on that branch" is false. -/
theorem c8_counterexample :
    launchAppWithMetalHUD ("D1".toList)
      ⟨"com.example.app".toList, some ("MyGame.app".toList), some ("42".toList),
        some []⟩ = .error missingPathMsg ∧
    (⟨"com.example.app".toList, some ("MyGame.app".toList), some ("42".toList),
        some []⟩ : ApplicationInfo).fullPath = some [] := by
  exact ⟨rfl, rfl⟩

/-- C8 (amended): `launchAppWithMetalHUD` fails with the missing-path error,
before any command is built, exactly when `fullPath` is unset or is the
empty string (the falsy cases of the source's `!app.fullPath` guard),
whatever the other fields are; with `fullPath` set to a non-empty path that
failure cannot occur and the exact launch command for that path is
produced. -/
theorem c8_launch_requires_full_path :
    (∀ (dev bid : List Char) (nm pid : Option (List Char)),
      launchAppWithMetalHUD dev ⟨bid, nm, pid, none⟩ = .error missingPathMsg) ∧
    (∀ (dev bid : List Char) (nm pid : Option (List Char)),
      launchAppWithMetalHUD dev ⟨bid, nm, pid, some []⟩ = .error missingPathMsg) ∧
    (∀ (dev p : List Char) (app : ApplicationInfo), app.fullPath = some p → p ≠ [] →
      launchAppWithMetalHUD dev app = .ok (buildLaunchCommand dev p)) := by
  refine ⟨fun dev bid nm pid => rfl, fun dev bid nm pid => rfl, ?_⟩
  intro dev p app h hp
  cases app with
  | mk bid nm pid fp =>
    cases h
    simp only [launchAppWithMetalHUD]
    rw [if_neg hp]

/-- C8 witness: a concrete launch with a non-empty path present. -/
theorem c8_witness :
    launchAppWithMetalHUD ("D1".toList)
      ⟨"com.example.app".toList, some ("MyGame.app".toList), some ("42".toList),
        some ("/path/App.app".toList)⟩ =
    .ok (buildLaunchCommand ("D1".toList) ("/path/App.app".toList)) :=
  c8_launch_requires_full_path.2.2 _ _ _ rfl (by decide)

/-- C1 counterexample: an input consisting of a header line and one data row
immediately after it. The row's sliced identifier trims to 11 characters (so
the claim demands exactly one record), yet the parser emits no record at all,
because the row sits on the line the parser unconditionally skips as the
separator (`headerLineIndex + 2` start). -/
theorem c1_counterexample :
    (jsTrim (jsSubstring ("MyPhone    12345678901  paired  iPhone15,2".toList)
      (jsIndexOf ("Name       Identifier   State   Model".toList) ("Identifier".toList))
      (jsIndexOf ("Name       Identifier   State   Model".toList) ("State".toList)))).length = 11 ∧
    parseDeviceOutput ("Name       Identifier   State   Model".toList ++ '\n' ::
      "MyPhone    12345678901  paired  iPhone15,2".toList) = [] := by
  exact ⟨by decide, by decide⟩

/-- C3 counterexample: on the line `Identifier: ABC XYZ` the full trimmed
remainder after the colon is `ABC XYZ`, but the legacy parser stores only
`ABC` — the capture group is `[A-F0-9-]+`, not the rest of the line. -/
theorem c3_counterexample :
    parseDeviceOutputLegacy ("Identifier: ABC XYZ".toList) =
      [⟨"ABC".toList, none, none, none⟩] ∧
    jsTrim (" ABC XYZ".toList) = "ABC XYZ".toList ∧
    ("ABC".toList : List Char) ≠ "ABC XYZ".toList := by
  exact ⟨by decide, by decide, by decide⟩

/-- C1 (amended): tabular device parsing slices rows at the character columns
where the four header labels start, but processing starts only two lines
after the header: the line immediately following the header is skipped as the
separator. With a header at index `i` the result is exactly the filterMap of
the row slicer over the lines from `i + 2` on (each emitted iff its trimmed
identifier slice is longer than 10 characters); a header line, a separator
line and one data row whose sliced identifier accepts yield exactly that one
record. -/
theorem c1_tabular_slicing :
    (∀ (output : List Char) (i : Nat),
      firstHeaderIdx (splitLines output) = some i →
      parseDeviceOutput output =
        ((splitLines output).drop (i + 2)).filterMap
          (parseTabularRow
            (jsIndexOf ((splitLines output).getD i []) ("Name".toList))
            (jsIndexOf ((splitLines output).getD i []) ("Identifier".toList))
            (jsIndexOf ((splitLines output).getD i []) ("State".toList))
            (jsIndexOf ((splitLines output).getD i []) ("Model".toList)))) ∧
    (∀ (header sep row : List Char) (d : DeviceInfo),
      '\n' ∉ header → '\n' ∉ sep → '\n' ∉ row →
      headerPred header = true →
      parseTabularRow
        (jsIndexOf header ("Name".toList)) (jsIndexOf header ("Identifier".toList))
        (jsIndexOf header ("State".toList)) (jsIndexOf header ("Model".toList))
        row = some d →
      parseDeviceOutput (header ++ '\n' :: (sep ++ '\n' :: row)) = [d]) := by
  constructor
  · intro output i h
    exact parseDeviceOutput_header output i h
  · intro header sep row d hh hs hr hhp hrow
    have hsplit : splitLines (header ++ '\n' :: (sep ++ '\n' :: row)) =
        header :: sep :: [row] := by
      rw [splitLines_append _ _ hh, splitLines_append _ _ hs, splitLines_no_nl _ hr]
    have hidx : firstHeaderIdx (splitLines (header ++ '\n' :: (sep ++ '\n' :: row))) =
        some 0 := by
      rw [hsplit]
      simp only [firstHeaderIdx, hhp, if_true]
    have hmain := parseDeviceOutput_header _ 0 hidx
    rw [hmain, hsplit]
    have hgd : (header :: sep :: [row]).getD 0 [] = header := rfl
    have hdrop : (header :: sep :: [row]).drop 2 = [row] := rfl
    rw [hgd, hdrop]
    simp only [List.filterMap_cons, hrow, List.filterMap_nil]

/-- C1 witness: a concrete header, separator and data row producing the one
expected record with the fields sliced at the header's label offsets. -/
theorem c1_witness :
    parseDeviceOutput ("Name    Identifier    State    Model".toList ++ '\n' ::
      ("--------------------------------------".toList ++ '\n' ::
        "MyPhone 12345678901   paired   iPhone15,2".toList)) =
    [⟨"12345678901".toList, some ("MyPhone".toList), some ("iOS".toList),
      some ("paired".toList)⟩] :=
  c1_tabular_slicing.2 _ _ _ _ (by decide) (by decide) (by decide) (by decide) (by decide)

/-- Unfolding of `selectDevice` on a list with at least two entries. -/
theorem selectDevice_multi (a b : DeviceInfo) (t : List DeviceInfo) (answer : List Char) :
    selectDevice (a :: b :: t) answer =
      match selectIndex (a :: b :: t).length answer with
      | .error e => .error e
      | .ok i => .ok ((a :: b :: t).getD i emptyDevice).identifier := rfl

/-- Unfolding of `selectApplication` on a list with at least two entries. -/
theorem selectApplication_multi (a b : ApplicationInfo) (t : List ApplicationInfo)
    (answer : List Char) :
    selectApplication (a :: b :: t) answer =
      match selectIndex (a :: b :: t).length answer with
      | .error e => .error e
      | .ok i => .ok ((a :: b :: t).getD i emptyApplication) := rfl

theorem selectIndex_err (n : Nat) (answer : List Char)
    (h : ∀ k, jsParseInt (jsTrim answer) = some k → k < 1 ∨ (n : Int) < k) :
    selectIndex n answer = .error (rangeMsg n) := by
  cases hp : jsParseInt (jsTrim answer) with
  | none => simp [selectIndex, hp]
  | some k =>
    simp only [selectIndex, hp]
    rw [if_pos (h k hp)]

theorem selectIndex_ok (n : Nat) (answer : List Char) (k : Int)
    (hp : jsParseInt (jsTrim answer) = some k) (h1 : 1 ≤ k) (h2 : k ≤ (n : Int)) :
    selectIndex n answer = .ok (k - 1).toNat := by
  simp only [selectIndex, hp]
  rw [if_neg (by omega)]

/-- C2: selection contract for device and application selection — an empty
list fails with the nothing-to-select error; a single record is returned for
any (even absent) input; with more than one record the validated
`parseInt(answer.trim())` choice fails with the range-description error
exactly when it is `NaN` or outside `[1, N]`, and otherwise yields the k-th
record (1-based). -/
theorem c2_selection_contract :
    (∀ answer, selectDevice [] answer = .error noDeviceMsg) ∧
    (∀ answer, selectApplication [] answer = .error noAppMsg) ∧
    (∀ d answer, selectDevice [d] answer = .ok d.identifier) ∧
    (∀ a answer, selectApplication [a] answer = .ok a) ∧
    (∀ (devices : List DeviceInfo) (answer : List Char), 1 < devices.length →
      ((∀ k, jsParseInt (jsTrim answer) = some k →
          k < 1 ∨ (devices.length : Int) < k) →
        selectDevice devices answer = .error (rangeMsg devices.length)) ∧
      (∀ k, jsParseInt (jsTrim answer) = some k → 1 ≤ k →
          k ≤ (devices.length : Int) →
        selectDevice devices answer =
          .ok ((devices.getD (k - 1).toNat emptyDevice).identifier))) ∧
    (∀ (apps : List ApplicationInfo) (answer : List Char), 1 < apps.length →
      ((∀ k, jsParseInt (jsTrim answer) = some k →
          k < 1 ∨ (apps.length : Int) < k) →
        selectApplication apps answer = .error (rangeMsg apps.length)) ∧
      (∀ k, jsParseInt (jsTrim answer) = some k → 1 ≤ k →
          k ≤ (apps.length : Int) →
        selectApplication apps answer = .ok (apps.getD (k - 1).toNat emptyApplication))) := by
  refine ⟨fun answer => rfl, fun answer => rfl, fun d answer => rfl, fun a answer => rfl,
    ?_, ?_⟩
  · intro devices answer hlen
    match devices with
    | [] => simp at hlen
    | [d] => simp at hlen
    | a :: b :: t =>
      constructor
      · intro hout
        rw [selectDevice_multi, selectIndex_err _ _ hout]
      · intro k hp h1 h2
        rw [selectDevice_multi, selectIndex_ok _ _ k hp h1 h2]
  · intro apps answer hlen
    match apps with
    | [] => simp at hlen
    | [a] => simp at hlen
    | a :: b :: t =>
      constructor
      · intro hout
        rw [selectApplication_multi, selectIndex_err _ _ hout]
      · intro k hp h1 h2
        rw [selectApplication_multi, selectIndex_ok _ _ k hp h1 h2]

/-- C2 witness: with two devices, input `2` selects the second; with two
applications, input `0` fails with the range error for `[1, 2]`. -/
theorem c2_witness :
    selectDevice [⟨"AAAA".toList, none, none, none⟩, ⟨"BBBB".toList, none, none, none⟩]
      ("2".toList) = .ok ("BBBB".toList) ∧
    selectApplication [⟨"a".toList, none, none, none⟩, ⟨"b".toList, none, none, none⟩]
      ("0".toList) = .error (rangeMsg 2) := by
  constructor
  · exact (c2_selection_contract.2.2.2.2.1 _ ("2".toList) (by decide)).2 2
      (by decide) (by decide) (by decide)
  · refine (c2_selection_contract.2.2.2.2.2 _ ("0".toList) (by decide)).1 ?_
    intro k hk
    rw [show jsParseInt (jsTrim ("0".toList)) = some 0 from by decide] at hk
    have hk0 := Option.some.inj hk
    simp only [List.length_cons, List.length_nil]
    omega

/-- C3 (amended): in legacy device parsing, a `Name:` / `Platform:` /
`Connection Type:` line stores the whitespace-trimmed remainder of the line
after the colon, but an `Identifier:` line stores only the first maximal run
of hexadecimal-digit or hyphen characters after the colon and optional
whitespace (the regex capture is `[A-F0-9-]+`, not `.+`); a two-line block
records these values on the open record. -/
theorem c3_legacy_label_values :
    (∀ (w : List Char) (c : Char) (v : List Char),
      w.all jsWs = true → jsWs c = false → (c :: v).all isDot = true →
      (∀ ch, (c :: v).getLast? = some ch → jsWs ch = false) →
      lineName ("Name:".toList ++ (w ++ c :: v)) = some (jsTrim (w ++ c :: v)) ∧
      linePlatform ("Platform:".toList ++ (w ++ c :: v)) = some (jsTrim (w ++ c :: v)) ∧
      lineConnection ("Connection Type:".toList ++ (w ++ c :: v)) =
        some (jsTrim (w ++ c :: v))) ∧
    (∀ (w r s : List Char), w.all jsWs = true → r ≠ [] → r.all isHexDash = true →
      (∀ ch, s.head? = some ch → isHexDash ch = false) →
      lineIdentifier ("Identifier:".toList ++ (w ++ (r ++ s))) = some r) ∧
    (∀ (idLine nameLine r nm : List Char),
      '\n' ∉ idLine → '\n' ∉ nameLine →
      lineIdentifier (jsTrim idLine) = some r →
      lineIdentifier (jsTrim nameLine) = none →
      lineName (jsTrim nameLine) = some nm →
      parseDeviceOutputLegacy (idLine ++ '\n' :: nameLine) =
        [⟨r, some nm, none, none⟩]) := by
  refine ⟨?_, ?_, ?_⟩
  · intro w c v hw hc hv hlast
    rw [jsTrim_clean w c v hw hc hlast]
    refine ⟨?_, ?_, ?_⟩
    · exact scanSuffixes_hit _ _ _
        (labelValueAt_clean ("name:".toList) ("Name:".toList) w c v
          (by decide) (by decide) hw hc hv)
    · exact scanSuffixes_hit _ _ _
        (labelValueAt_clean ("platform:".toList) ("Platform:".toList) w c v
          (by decide) (by decide) hw hc hv)
    · exact scanSuffixes_hit _ _ _
        (labelValueAt_clean ("connection type:".toList) ("Connection Type:".toList) w c v
          (by decide) (by decide) hw hc hv)
  · intro w r s hw hr hra hs
    exact scanSuffixes_hit _ _ _ (identAt_clean w r s hw hr hra hs)
  · intro idLine nameLine r nm hnl1 hnl2 hid hnid hnm
    unfold parseDeviceOutputLegacy
    rw [splitLines_append _ _ hnl1, splitLines_no_nl _ hnl2]
    rw [legacyLoop_ident _ _ _ _ hid]
    rw [legacyLoop_name _ _ _ _ hnid hnm]
    rfl

/-- C3 witness: a `Name:` line stores the whole trimmed remainder (including
inner spaces), and a two-line identifier/name block records both values. -/
theorem c3_witness :
    lineName ("Name:".toList ++ (" ".toList ++ 'M' :: "y Phone 15".toList)) =
      some (jsTrim (" ".toList ++ 'M' :: "y Phone 15".toList)) ∧
    parseDeviceOutputLegacy ("Identifier: ABCD".toList ++ '\n' :: "Name: My Phone 15".toList) =
      [⟨"ABCD".toList, some ("My Phone 15".toList), none, none⟩] := by
  constructor
  · refine (c3_legacy_label_values.1 (" ".toList) 'M' ("y Phone 15".toList)
      (by decide) (by decide) (by decide) ?_).1
    intro ch hch
    rw [show ('M' :: "y Phone 15".toList).getLast? = some '5' from by decide] at hch
    cases hch
    decide
  · exact c3_legacy_label_values.2.2 _ _ _ _ (by decide) (by decide)
      (by decide) (by decide) (by decide)

theorem appStep_cases (apps : List ApplicationInfo) (line : List Char) :
    appStep apps line = apps ∨ ∃ x, appStep apps line = apps ++ [x] := by
  by_cases ht : jsTrim line = []
  · exact Or.inl (by simp [appStep, ht])
  · cases hb : bundleCapture (jsTrim line) with
    | none => exact Or.inl (by simp [appStep, ht, hb])
    | some p =>
      obtain ⟨bid, nm⟩ := p
      by_cases hany : apps.any (fun a => a.bundleId = bid) = true
      · exact Or.inl (by simp [appStep, ht, hb, hany])
      · refine Or.inr ⟨⟨bid, some nm, pidCapture (jsTrim line), pathCaptureLine (jsTrim line)⟩, ?_⟩
        simp [appStep, ht, hb, hany]

/-- C5: application parsing and deduplication — the result always has
pairwise-distinct bundle identifiers; each line contributes at most one
record; a line only ever appends (existing records are never modified); a
line whose captured bundle id already occurs in the accumulated list
contributes nothing; and the spec's concrete two-line sample (same bundle id,
different pids) yields exactly the first record. -/
theorem c5_application_dedup :
    (∀ output, ((parseApplicationOutput output).map (fun a => a.bundleId)).Nodup) ∧
    (∀ apps line, (appStep apps line).length ≤ apps.length + 1) ∧
    (∀ apps line, ∃ t, appStep apps line = apps ++ t) ∧
    (∀ apps line bid nm, bundleCapture (jsTrim line) = some (bid, nm) →
      (∃ a ∈ apps, a.bundleId = bid) → appStep apps line = apps) ∧
    parseApplicationOutput
      ("1234 /private/var/containers/Bundle/Application/com.example.app/MyGame.app\n5678 /private/var/containers/Bundle/Application/com.example.app/MyGame.app".toList) =
      [⟨"com.example.app".toList, some ("MyGame.app".toList), some ("1234".toList),
        some ("/private/var/containers/Bundle/Application/com.example.app/MyGame.app".toList)⟩] := by
  refine ⟨?_, ?_, appStep_extends, appStep_dup, by decide⟩
  · intro output
    exact foldl_appStep_nodup (splitLines output) [] (by simp)
  · intro apps line
    rcases appStep_cases apps line with h | ⟨x, h⟩
    · simp [h]
    · simp [h]

/-- C5 witness: a duplicate-bundle-id line leaves an accumulated list
unchanged. -/
theorem c5_witness :
    appStep [⟨"com.example.app".toList, some ("MyGame.app".toList), some ("1234".toList),
      none⟩]
      ("5678 /private/var/containers/Bundle/Application/com.example.app/MyGame.app".toList) =
    [⟨"com.example.app".toList, some ("MyGame.app".toList), some ("1234".toList), none⟩] :=
  c5_application_dedup.2.2.2.1 _ _ ("com.example.app".toList) ("MyGame.app".toList)
    (by decide)
    ⟨⟨"com.example.app".toList, some ("MyGame.app".toList), some ("1234".toList), none⟩,
      by decide, rfl⟩

/-- C7: legacy record boundaries — an `Identifier:` line flushes the open
record and opens a fresh one holding the new identifier; the final open
record is flushed after the last line; a concrete two-block input yields the
two records in encounter order with no cross-contamination. -/
theorem c7_legacy_record_boundaries :
    (∀ (line : List Char) (ls : List (List Char)) (cur : Option DeviceInfo)
        (id : List Char),
      lineIdentifier (jsTrim line) = some id →
      legacyLoop (line :: ls) cur =
        flushCur cur ++ legacyLoop ls (some ⟨id, none, none, none⟩)) ∧
    (∀ cur, legacyLoop [] cur = flushCur cur) ∧
    parseDeviceOutputLegacy
      ("Identifier: 1111-AAAA\nName: First\nPlatform: iOS\nIdentifier: 2222-BBBB\nName: Second\nPlatform: tvOS".toList) =
      [⟨"1111-AAAA".toList, some ("First".toList), some ("iOS".toList), none⟩,
       ⟨"2222-BBBB".toList, some ("Second".toList), some ("tvOS".toList), none⟩] := by
  exact ⟨legacyLoop_ident, fun cur => rfl, by decide⟩

/-- C7 witness: an `Identifier:` line flushes a previously open record and
opens a fresh one, at concrete inputs. -/
theorem c7_witness :
    legacyLoop ["Identifier: ABCD".toList] (some ⟨"FFFF".toList, none, none, none⟩) =
      flushCur (some ⟨"FFFF".toList, none, none, none⟩) ++
        legacyLoop [] (some ⟨"ABCD".toList, none, none, none⟩) :=
  c7_legacy_record_boundaries.1 _ _ _ _ (by decide)

/-- C9: device-record invariant — every record produced by device parsing,
through the tabular or the legacy path, for any input, has a non-empty
identifier. -/
theorem c9_identifier_nonempty :
    (∀ output, ∀ d ∈ parseDeviceOutput output, d.identifier ≠ []) ∧
    (∀ output, ∀ d ∈ parseDeviceOutputLegacy output, d.identifier ≠ []) := by
  have hleg : ∀ output, ∀ d ∈ parseDeviceOutputLegacy output, d.identifier ≠ [] := by
    intro output d hd
    exact legacyLoop_ne_nil (splitLines output) none
      (by intro d' h'; exact absurd h' (by simp)) d hd
  constructor
  · intro output d hd
    cases hh : firstHeaderIdx (splitLines output) with
    | none =>
      rw [parseDeviceOutput_legacy_path output hh] at hd
      exact hleg output d hd
    | some i =>
      rw [parseDeviceOutput_header output i hh] at hd
      obtain ⟨line, hline, hrow⟩ := List.mem_filterMap.mp hd
      exact parseTabularRow_ne_nil _ _ _ _ _ _ hrow
  · exact hleg

/-- C9 witness: a concrete record produced by the legacy path has a non-empty
identifier. -/
theorem c9_witness :
    (⟨"ABC".toList, none, none, none⟩ : DeviceInfo) ∈
      parseDeviceOutputLegacy ("Identifier: ABC".toList) ∧
    (⟨"ABC".toList, none, none, none⟩ : DeviceInfo).identifier ≠ [] :=
  ⟨by decide,
    c9_identifier_nonempty.2 ("Identifier: ABC".toList)
      ⟨"ABC".toList, none, none, none⟩ (by decide)⟩

/-- C10: implicit legacy trigger — a line that merely contains
`Identifier:` anywhere (even embedded in a longer word, surrounded by other
text) followed by a non-empty run of hexadecimal-digit or hyphen characters
opens a new device record whose identifier is that run, provided no earlier
position of the line matches the identifier pattern. -/
theorem c10_embedded_identifier_label (pre r s : List Char)
    (hr : r ≠ []) (hra : r.all isHexDash = true)
    (hs : ∀ c, s.head? = some c → isHexDash c = false)
    (hpre : ∀ i, i < pre.length →
      identAt ((pre ++ ("Identifier:".toList ++ (r ++ s))).drop i) = none)
    (htrim : jsTrim (pre ++ ("Identifier:".toList ++ (r ++ s))) =
      pre ++ ("Identifier:".toList ++ (r ++ s)))
    (hnl : '\n' ∉ pre ++ ("Identifier:".toList ++ (r ++ s))) :
    parseDeviceOutputLegacy (pre ++ ("Identifier:".toList ++ (r ++ s))) =
      [⟨r, none, none, none⟩] := by
  have hid : lineIdentifier (pre ++ ("Identifier:".toList ++ (r ++ s))) = some r := by
    unfold lineIdentifier
    rw [scanSuffixes_append_none identAt pre _ hpre]
    refine scanSuffixes_hit identAt _ r ?_
    have := identAt_clean [] r s (by simp) hr hra hs
    simpa using this
  unfold parseDeviceOutputLegacy
  rw [splitLines_no_nl _ hnl]
  rw [legacyLoop_ident _ _ _ _ (by rw [htrim]; exact hid)]
  rfl

/-- C10 witness: the line `SomeIdentifier:ABC-123 tail`, where the label is
embedded in the word `SomeIdentifier` and followed by trailing text, opens a
record with identifier `ABC-123`. -/
theorem c10_witness :
    parseDeviceOutputLegacy ("Some".toList ++ ("Identifier:".toList ++
      ("ABC-123".toList ++ " tail".toList))) = [⟨"ABC-123".toList, none, none, none⟩] :=
  c10_embedded_identifier_label ("Some".toList) ("ABC-123".toList) (" tail".toList)
    (by decide) (by decide)
    (by intro c hc; cases hc; decide)
    (by decide) (by decide) (by decide)
